import Mathlib

/-!
# Verification of the ssh-key-manager audit/remediation core

Shallow embedding of `libs/keyManager.py` (and the driving code in
`main.py`) of the `ssh-key-manager` repository, together with proofs of
the behavioural properties of its reconciliation engine, codec, config
expansion, credential handling and upload scheduling.

Dictionaries from the Python source become Lean structures; the
module-level lists `all_keys` and the dicts `pwds` / `passwords` become
explicit arguments and explicit state; the thread-per-pair fan-out
becomes a map over the pair list (the threads share only the credential
dictionaries, which are never read across distinct pairs); Python string
primitives (`str.split`, `str.strip`, `str.startswith`, `readlines`)
are modelled character-exactly on `List Char`.
-/

namespace KeyManager

/-! ## Python string primitives, modelled on `List Char` -/

/-- Python `str.split(sep)` for a one-character separator: splits at every
occurrence, keeping empty fields; `"".split(sep) = [""]`. -/
def pySplit (sep : Char) : List Char → List (List Char)
  | [] => [[]]
  | c :: cs =>
    match pySplit sep cs with
    | [] => [[]]
    | r :: rs => if c = sep then [] :: r :: rs else (c :: r) :: rs

/-- The characters removed by Python `str.strip()` with no argument:
CPython's Unicode whitespace set, i.e. U+0009-U+000D, U+001C-U+001F,
the space, NEL U+0085, NBSP U+00A0, U+1680, U+2000-U+200A, U+2028,
U+2029, U+202F, U+205F and U+3000. -/
def isPySpace (c : Char) : Bool :=
  (0x09 ≤ c.toNat && c.toNat ≤ 0x0d) || c.toNat == 0x20 ||
    (0x1c ≤ c.toNat && c.toNat ≤ 0x1f) || c.toNat == 0x85 ||
    c.toNat == 0xa0 || c.toNat == 0x1680 ||
    (0x2000 ≤ c.toNat && c.toNat ≤ 0x200a) || c.toNat == 0x2028 ||
    c.toNat == 0x2029 || c.toNat == 0x202f || c.toNat == 0x205f ||
    c.toNat == 0x3000

/-- Python `str.strip()`: drop leading and trailing whitespace. -/
def pyStrip (l : List Char) : List Char :=
  ((l.dropWhile isPySpace).reverse.dropWhile isPySpace).reverse

/-- Python `file.readlines()` applied to the full text: split after every
`'\n'`, keeping the `'\n'` at the end of each line; a final segment with
no terminator is still a line; empty text gives no lines. -/
def pyReadlines : List Char → List (List Char)
  | [] => []
  | c :: cs =>
    match pyReadlines cs with
    | [] => if c = '\n' then [['\n']] else [[c]]
    | l :: ls => if c = '\n' then ['\n'] :: l :: ls else (c :: l) :: ls

/-! ## Data model

Field names follow the Python dictionaries. -/

/-- One server entry of the config: `{host: ..., users: [...]}`. -/
structure Server where
  host : String
  users : List String
deriving DecidableEq, Repr

/-- One `access` entry of a non-admin key: `{host: ..., username: ...}`. -/
structure AccessGrant where
  host : String
  username : String
deriving DecidableEq, Repr

/-- One `keys` entry of a config user: `{type, key, hostname, admin, access}`.
`key.get("admin", False)` is modelled by a plain `Bool`; an absent
`access` list is `none`. -/
structure KeyRecord where
  type : String
  key : String
  hostname : String
  admin : Bool
  access : Option (List AccessGrant)
deriving DecidableEq, Repr

/-- One `users` entry of the config; an absent `keys` list is `none`. -/
structure ConfigUser where
  email : String
  keys : Option (List KeyRecord)
deriving DecidableEq, Repr

/-- An expected binding as emitted by `fetch_config` into `all_user_keys`:
`{hostname, user, type, key, key_user, email}`. -/
structure UserKey where
  hostname : String
  user : String
  type : String
  key : String
  key_user : String
  email : String
deriving DecidableEq, Repr

/-- A discovered binding as stored in the module-level `all_keys` list:
`{host, user, type, key, key_user}`. -/
structure DiscKey where
  host : String
  user : String
  type : String
  key : String
  key_user : String
deriving DecidableEq, Repr

/-- One entry of the `checked_keys` list returned by `check_keys`:
`{user, host, type, key, hostname, status}`. -/
structure CheckedKey where
  user : String
  host : String
  type : String
  key : String
  hostname : String
  status : Int
deriving DecidableEq, Repr

/-- The (host, account, material) triple of an expected binding. -/
def UserKey.triple (uk : UserKey) : String × String × String :=
  (uk.hostname, uk.user, uk.key)

/-- The (host, account, material) triple of a discovered binding. -/
def DiscKey.triple (ak : DiscKey) : String × String × String :=
  (ak.host, ak.user, ak.key)

/-- The (host, account, material) triple of a reconciliation result. -/
def CheckedKey.triple (ck : CheckedKey) : String × String × String :=
  (ck.host, ck.user, ck.key)

/-! ## `check_keys`: the reconciliation engine

`check_keys(all_user_keys)` reads the module-level `all_keys`; here both
lists are explicit arguments.  First pass: for every expected key, one
MATCHED (`status = 0`) entry per discovered key agreeing on
(material, host, user), or a single NOT-FOUND (`status = 1`) entry when
none agrees.  Second pass: one UNAUTHORIZED (`status = -1`) entry per
discovered key with no agreeing expected key. -/

/-- The comparison of lines 534-538 / 564-568 of `keyManager.py`:
equality of `key`, of `hostname`/`host` and of `user`. -/
def ukMatches (uk : UserKey) (ak : DiscKey) : Bool :=
  uk.key == ak.key && uk.hostname == ak.host && uk.user == ak.user

/-- The dict appended at lines 539-548 (MATCHED, `status = 0`): `host`
comes from the discovered key, everything else from the expected key. -/
def matchedEntry (uk : UserKey) (ak : DiscKey) : CheckedKey :=
  ⟨uk.user, ak.host, uk.type, uk.key, uk.key_user, 0⟩

/-- The dict appended at lines 551-560 (NOT FOUND, `status = 1`). -/
def missingEntry (uk : UserKey) : CheckedKey :=
  ⟨uk.user, uk.hostname, uk.type, uk.key, uk.key_user, 1⟩

/-- The dict appended at lines 571-580 (UNAUTHORIZED, `status = -1`). -/
def unauthEntry (ak : DiscKey) : CheckedKey :=
  ⟨ak.user, ak.host, ak.type, ak.key, ak.key_user, -1⟩

/-- First pass of `check_keys` for a single expected key. -/
def checkOne (all_keys : List DiscKey) (uk : UserKey) : List CheckedKey :=
  let ms := all_keys.filter (fun ak => ukMatches uk ak)
  if ms.isEmpty then [missingEntry uk] else ms.map (matchedEntry uk)

/-- `check_keys` (keyManager.py lines 518-582), with the module-level
`all_keys` list passed explicitly. -/
def check_keys (all_user_keys : List UserKey) (all_keys : List DiscKey) :
    List CheckedKey :=
  (all_user_keys.flatMap (checkOne all_keys)) ++
    ((all_keys.filter
        (fun ak => !all_user_keys.any (fun uk => ukMatches uk ak))).map
      unauthEntry)

/-- The expected (host, account, material) triples of a run. -/
def trE (E : List UserKey) : List (String × String × String) :=
  E.map UserKey.triple

/-- The discovered (host, account, material) triples of a run. -/
def trD (D : List DiscKey) : List (String × String × String) :=
  D.map DiscKey.triple

theorem ukMatches_iff {uk : UserKey} {ak : DiscKey} :
    ukMatches uk ak = true ↔ ak.triple = uk.triple := by
  simp only [ukMatches, UserKey.triple, DiscKey.triple, Bool.and_eq_true,
    beq_iff_eq, Prod.mk.injEq]
  tauto

theorem exists_ukMatches_iff {uk : UserKey} {D : List DiscKey} :
    (∃ ak ∈ D, ukMatches uk ak = true) ↔ uk.triple ∈ trD D := by
  simp [trD, List.mem_map, ukMatches_iff]

theorem checkOne_eq (D : List DiscKey) (uk : UserKey) :
    checkOne D uk =
      if (D.filter (fun ak => ukMatches uk ak)).isEmpty then [missingEntry uk]
      else (D.filter (fun ak => ukMatches uk ak)).map (matchedEntry uk) := rfl

theorem matchedEntry_triple {uk : UserKey} {ak : DiscKey}
    (h : ukMatches uk ak = true) : (matchedEntry uk ak).triple = uk.triple := by
  have htr := ukMatches_iff.mp h
  simp only [DiscKey.triple, UserKey.triple, Prod.mk.injEq] at htr
  simp [matchedEntry, CheckedKey.triple, UserKey.triple, htr.1]

theorem checkOne_triple {D : List DiscKey} {uk : UserKey} {c : CheckedKey}
    (h : c ∈ checkOne D uk) : c.triple = uk.triple := by
  rw [checkOne_eq] at h
  by_cases hm : (D.filter (fun ak => ukMatches uk ak)).isEmpty = true
  · rw [if_pos hm, List.mem_singleton] at h
    subst h
    rfl
  · rw [if_neg hm, List.mem_map] at h
    obtain ⟨ak, hak, rfl⟩ := h
    exact matchedEntry_triple (List.mem_filter.mp hak).2

theorem checkOne_status {D : List DiscKey} {uk : UserKey} {c : CheckedKey}
    (h : c ∈ checkOne D uk) :
    c.status = if uk.triple ∈ trD D then 0 else 1 := by
  rw [checkOne_eq] at h
  by_cases hm : (D.filter (fun ak => ukMatches uk ak)).isEmpty = true
  · rw [if_pos hm, List.mem_singleton] at h
    subst h
    have hnone : ¬ uk.triple ∈ trD D := by
      rw [← exists_ukMatches_iff]
      rintro ⟨ak, hak, hmt⟩
      have : (D.filter (fun ak => ukMatches uk ak)) = [] := by
        simpa using hm
      exact absurd (List.mem_filter.mpr ⟨hak, hmt⟩) (by simp [this])
    simp [missingEntry, hnone]
  · rw [if_neg hm, List.mem_map] at h
    obtain ⟨ak, hak, rfl⟩ := h
    have hmem := List.mem_filter.mp hak
    have hin : uk.triple ∈ trD D :=
      exists_ukMatches_iff.mp ⟨ak, hmem.1, hmem.2⟩
    simp [matchedEntry, hin]

theorem checkOne_exists (D : List DiscKey) (uk : UserKey) :
    ∃ c ∈ checkOne D uk, c.triple = uk.triple := by
  rw [checkOne_eq]
  by_cases hm : (D.filter (fun ak => ukMatches uk ak)).isEmpty = true
  · exact ⟨missingEntry uk, by simp [hm], rfl⟩
  · have hne : (D.filter (fun ak => ukMatches uk ak)) ≠ [] := by
      intro he
      exact hm (by simp [he])
    obtain ⟨ak, hak⟩ := List.exists_mem_of_ne_nil _ hne
    refine ⟨matchedEntry uk ak, ?_, matchedEntry_triple (List.mem_filter.mp hak).2⟩
    rw [if_neg hm, List.mem_map]
    exact ⟨ak, hak, rfl⟩

theorem mem_check_keys_iff {E : List UserKey} {D : List DiscKey}
    {c : CheckedKey} :
    c ∈ check_keys E D ↔
      (∃ uk ∈ E, c ∈ checkOne D uk) ∨
        (∃ ak ∈ D, ak.triple ∉ trE E ∧ c = unauthEntry ak) := by
  unfold check_keys
  rw [List.mem_append, List.mem_flatMap]
  apply or_congr Iff.rfl
  simp only [List.mem_map, List.mem_filter, Bool.not_eq_true', ← Bool.not_eq_true,
    List.any_eq_true, not_exists, not_and]
  constructor
  · rintro ⟨ak, ⟨hak, hno⟩, rfl⟩
    refine ⟨ak, hak, ?_, rfl⟩
    simp only [trE, List.mem_map, not_exists, not_and]
    rintro uk huk htr
    exact absurd (ukMatches_iff.mpr htr.symm) (by simpa using hno uk huk)
  · rintro ⟨ak, hak, hno, rfl⟩
    refine ⟨ak, ⟨hak, ?_⟩, rfl⟩
    intro uk huk
    intro hmt
    exact hno (by
      simp only [trE, List.mem_map]
      exact ⟨uk, huk, (ukMatches_iff.mp hmt).symm⟩)

theorem unauthEntry_triple (ak : DiscKey) :
    (unauthEntry ak).triple = ak.triple := rfl

theorem mem_check_keys_of_checkOne {E : List UserKey} {D : List DiscKey}
    {uk : UserKey} {c : CheckedKey} (huk : uk ∈ E) (hc : c ∈ checkOne D uk) :
    c ∈ check_keys E D :=
  mem_check_keys_iff.mpr (Or.inl ⟨uk, huk, hc⟩)

/-- Sample expected binding: key `K1` granted to deploy@db1. -/
def ukK1 : UserKey :=
  ⟨"db1", "deploy", "ssh-rsa", "K1", "alice-laptop", "alice@example.com"⟩

/-- Sample discovered binding equal to `ukK1` on (host, account, material). -/
def akK1 : DiscKey := ⟨"db1", "deploy", "ssh-rsa", "K1", "alice-laptop"⟩

/-- Sample discovered binding with no expected counterpart. -/
def akK2 : DiscKey := ⟨"db1", "deploy", "ssh-rsa", "K2", "mallory"⟩

/-- C1: `check_keys` labels the (host, account, material) triples as a
partition: every result's triple comes from the expected or the
discovered set; every expected and every discovered triple is
represented; and a result's status is 0 (MATCHED) exactly when its
triple is both expected and discovered, 1 (MISSING) exactly when it is
expected only, and -1 (UNAUTHORIZED) exactly when it is discovered
only.  The statuses depend on nothing but the (host, account, material)
triples, so key type and comment never affect the label. -/
theorem check_keys_partition (E : List UserKey) (D : List DiscKey) :
    (∀ c ∈ check_keys E D, c.triple ∈ trE E ∨ c.triple ∈ trD D) ∧
    (∀ t ∈ trE E, ∃ c ∈ check_keys E D, c.triple = t) ∧
    (∀ t ∈ trD D, ∃ c ∈ check_keys E D, c.triple = t) ∧
    (∀ c ∈ check_keys E D,
      c.status =
        if c.triple ∈ trE E then (if c.triple ∈ trD D then 0 else 1)
        else -1) := by
  refine ⟨?_, ?_, ?_, ?_⟩
  · intro c hc
    rcases mem_check_keys_iff.mp hc with ⟨uk, huk, hone⟩ | ⟨ak, hak, _, rfl⟩
    · exact Or.inl (by
        rw [checkOne_triple hone]
        exact List.mem_map_of_mem _ huk)
    · exact Or.inr (by
        rw [unauthEntry_triple]
        exact List.mem_map_of_mem _ hak)
  · intro t ht
    obtain ⟨uk, huk, rfl⟩ := List.mem_map.mp ht
    obtain ⟨c, hc, hct⟩ := checkOne_exists D uk
    exact ⟨c, mem_check_keys_of_checkOne huk hc, hct⟩
  · intro t ht
    obtain ⟨ak, hak, rfl⟩ := List.mem_map.mp ht
    by_cases hE : ak.triple ∈ trE E
    · obtain ⟨uk, huk, huktr⟩ := List.mem_map.mp hE
      obtain ⟨c, hc, hct⟩ := checkOne_exists D uk
      exact ⟨c, mem_check_keys_of_checkOne huk hc, by rw [hct, huktr]⟩
    · exact ⟨unauthEntry ak,
        mem_check_keys_iff.mpr (Or.inr ⟨ak, hak, hE, rfl⟩),
        unauthEntry_triple ak⟩
  · intro c hc
    rcases mem_check_keys_iff.mp hc with ⟨uk, huk, hone⟩ | ⟨ak, hak, hnot, rfl⟩
    · have htr := checkOne_triple hone
      have hE : c.triple ∈ trE E := by
        rw [htr]
        exact List.mem_map_of_mem _ huk
      rw [if_pos hE, checkOne_status hone, htr]
    · rw [unauthEntry_triple] at *
      rw [if_neg hnot]
      rfl

/-- Witness for C1 at the spec's §8 scenario: expected {K1}, discovered
{K1, K2} for deploy@db1; the K2 row is present and labelled -1 by the
partition formula. -/
theorem check_keys_partition_witness :
    (unauthEntry akK2 ∈ check_keys [ukK1] [akK1, akK2]) ∧
      (unauthEntry akK2).status =
        (if (unauthEntry akK2).triple ∈ trE [ukK1] then
          (if (unauthEntry akK2).triple ∈ trD [akK1, akK2] then 0 else 1)
        else -1) :=
  ⟨by decide,
    (check_keys_partition [ukK1] [akK1, akK2]).2.2.2 (unauthEntry akK2)
      (by decide)⟩

theorem unauthFilter_iff {E : List UserKey} {ak : DiscKey} :
    (!E.any (fun uk => ukMatches uk ak)) = true ↔ ak.triple ∉ trE E := by
  constructor
  · intro h hmem
    obtain ⟨uk, huk, htr⟩ := List.mem_map.mp hmem
    have hany : E.any (fun uk => ukMatches uk ak) = true :=
      List.any_eq_true.mpr ⟨uk, huk, ukMatches_iff.mpr htr.symm⟩
    rw [hany] at h
    simp at h
  · intro h
    have hany : E.any (fun uk => ukMatches uk ak) = false := by
      rw [← Bool.not_eq_true, List.any_eq_true]
      rintro ⟨uk, huk, hmt⟩
      exact h (List.mem_map.mpr ⟨uk, huk, (ukMatches_iff.mp hmt).symm⟩)
    rw [hany]
    rfl

theorem checkOne_map_triple {D : List DiscKey} (hD : (trD D).Nodup)
    (uk : UserKey) :
    (checkOne D uk).map CheckedKey.triple = [uk.triple] := by
  rw [checkOne_eq]
  by_cases hm : (D.filter (fun ak => ukMatches uk ak)).isEmpty = true
  · rw [if_pos hm]
    rfl
  · rw [if_neg hm, List.map_map]
    have hsub : List.Sublist
        ((D.filter (fun ak => ukMatches uk ak)).map DiscKey.triple)
        (trD D) :=
      (List.filter_sublist D).map DiscKey.triple
    have hnd := hD.sublist hsub
    match hms : D.filter (fun ak => ukMatches uk ak) with
    | [] => exact absurd (by simp [hms]) hm
    | [ak] =>
      have hak : ak ∈ D.filter (fun ak => ukMatches uk ak) := by
        rw [hms]
        exact List.mem_singleton_self ak
      simp only [List.map_cons, List.map_nil, Function.comp_apply]
      rw [matchedEntry_triple (List.mem_filter.mp hak).2]
    | a :: b :: t =>
      exfalso
      rw [hms] at hnd
      have hamem : a ∈ D.filter (fun ak => ukMatches uk ak) := by
        rw [hms]
        simp
      have hbmem : b ∈ D.filter (fun ak => ukMatches uk ak) := by
        rw [hms]
        simp
      have htr : a.triple = b.triple := by
        rw [ukMatches_iff.mp (List.mem_filter.mp hamem).2,
          ukMatches_iff.mp (List.mem_filter.mp hbmem).2]
      simp only [List.map_cons, List.nodup_cons, List.mem_cons] at hnd
      exact hnd.1 (Or.inl htr)

theorem check_keys_map_triple {E : List UserKey} {D : List DiscKey}
    (hD : (trD D).Nodup) :
    (check_keys E D).map CheckedKey.triple =
      trE E ++
        (D.filter (fun ak => !E.any (fun uk => ukMatches uk ak))).map
          DiscKey.triple := by
  unfold check_keys
  rw [List.map_append]
  congr 1
  · induction E with
    | nil => rfl
    | cons a as ih =>
      rw [List.flatMap_cons, List.map_append, checkOne_map_triple hD a, ih]
      rfl
  · rw [List.map_map]
    rfl

/-- C4 counterexample: when the policy expansion emits the same
(host, account, material) triple twice (for example a key that is both
admin and explicitly granted), `check_keys` emits two result rows for
that triple, not one. -/
theorem check_keys_triple_twice :
    ((check_keys [ukK1, ukK1] []).map CheckedKey.triple).count
      ("db1", "deploy", "K1") = 2 := by decide

/-- C4 amended: when the expected list and the discovered list each
mention every (host, account, material) triple at most once, every
triple of either list appears exactly once in the `check_keys` output:
the result's triple list has no duplicates and contains exactly the
expected and discovered triples.  Duplicated expected emissions
instead yield one output row per duplicate. -/
theorem check_keys_triples_once (E : List UserKey) (D : List DiscKey)
    (hE : (trE E).Nodup) (hD : (trD D).Nodup) :
    ((check_keys E D).map CheckedKey.triple).Nodup ∧
      (∀ t, t ∈ (check_keys E D).map CheckedKey.triple ↔
        (t ∈ trE E ∨ t ∈ trD D)) := by
  have hsub : List.Sublist
      ((D.filter (fun ak => !E.any (fun uk => ukMatches uk ak))).map
        DiscKey.triple)
      (trD D) :=
    (List.filter_sublist D).map DiscKey.triple
  have hnd2 := hD.sublist hsub
  have hmem2 : ∀ s, s ∈ (D.filter
      (fun ak => !E.any (fun uk => ukMatches uk ak))).map DiscKey.triple ↔
      s ∈ trD D ∧ s ∉ trE E := by
    intro s
    simp only [List.mem_map, List.mem_filter]
    constructor
    · rintro ⟨ak, ⟨hak, hflt⟩, rfl⟩
      exact ⟨List.mem_map_of_mem _ hak, unauthFilter_iff.mp hflt⟩
    · rintro ⟨hs, hnot⟩
      obtain ⟨ak, hak, rfl⟩ := List.mem_map.mp hs
      exact ⟨ak, ⟨hak, unauthFilter_iff.mpr hnot⟩, rfl⟩
  rw [check_keys_map_triple hD]
  constructor
  · rw [List.nodup_append]
    refine ⟨hE, hnd2, ?_⟩
    intro s hs1 hs2
    exact ((hmem2 s).mp hs2).2 hs1
  · intro t
    rw [List.mem_append, hmem2]
    by_cases h1 : t ∈ trE E
    · by_cases h2 : t ∈ trD D <;> simp [h1, h2]
    · by_cases h2 : t ∈ trD D <;> simp [h1, h2]

/-- Witness for C4's amended theorem at duplicate-free inputs: the
triple list of the result has no duplicate. -/
theorem check_keys_triples_once_witness :
    ((trE [ukK1]).Nodup ∧ (trD [akK1, akK2]).Nodup) ∧
      ((check_keys [ukK1] [akK1, akK2]).map CheckedKey.triple).Nodup :=
  ⟨⟨by decide, by decide⟩,
    (check_keys_triples_once [ukK1] [akK1, akK2] (by decide) (by decide)).1⟩

/-! ## The fix workflow: `fix_keys_cli` plan construction

Lines 61-84 of `keyManager.py` (and identically `fix_keys` in
`main.py`): the checked keys with `status >= 0` are kept, grouped by
(host, user), written to a local file by `create_ssh_file` and
uploaded. -/

/-- Line 61: `fixed_keys = list(filter(lambda k: k["status"] >= 0,
checked_keys))`. -/
def fixed_keys (checked_keys : List CheckedKey) : List CheckedKey :=
  checked_keys.filter (fun k => decide (0 ≤ k.status))

/-- Lines 70-78: the list stored in `key_tables[f"{user}@{host}"]`:
the fixed keys filtered on this host, this user and `status >= 0`. -/
def key_table (checked_keys : List CheckedKey) (host user : String) :
    List CheckedKey :=
  (fixed_keys checked_keys).filter
    (fun k => k.host == host && k.user == user && decide (0 ≤ k.status))

/-- `create_ssh_file` (lines 207-223): the full text written to the
staged `{hostname}.authorized_keys` file, one line
`"<type> <key> <hostname>\n"` per entry. -/
def create_ssh_file (key_data : List CheckedKey) : String :=
  String.join
    (key_data.map (fun k => k.type ++ " " ++ k.key ++ " " ++ k.hostname ++ "\n"))

theorem checkOne_status_cases {D : List DiscKey} {uk : UserKey}
    {c : CheckedKey} (h : c ∈ checkOne D uk) :
    c.status = 0 ∨ c.status = 1 := by
  rw [checkOne_status h]
  by_cases hm : uk.triple ∈ trD D
  · exact Or.inl (if_pos hm)
  · exact Or.inr (if_neg hm)

theorem check_keys_status_cases {E : List UserKey} {D : List DiscKey}
    {c : CheckedKey} (h : c ∈ check_keys E D) :
    c.status = 0 ∨ c.status = 1 ∨ c.status = -1 := by
  rcases mem_check_keys_iff.mp h with ⟨uk, _, hone⟩ | ⟨ak, _, _, rfl⟩
  · rcases checkOne_status_cases hone with h0 | h1
    · exact Or.inl h0
    · exact Or.inr (Or.inl h1)
  · exact Or.inr (Or.inr rfl)

theorem status_nonneg_triple_mem {E : List UserKey} {D : List DiscKey}
    {c : CheckedKey} (hc : c ∈ check_keys E D) (hst : 0 ≤ c.status) :
    c.triple ∈ trE E := by
  rcases mem_check_keys_iff.mp hc with ⟨uk, huk, hone⟩ | ⟨ak, _, _, rfl⟩
  · rw [checkOne_triple hone]
    exact List.mem_map_of_mem _ huk
  · exfalso
    have h1 : (unauthEntry ak).status = -1 := rfl
    omega

theorem status_neg_triple_not_mem {E : List UserKey} {D : List DiscKey}
    {c : CheckedKey} (hc : c ∈ check_keys E D) (hst : c.status = -1) :
    c.triple ∉ trE E := by
  rcases mem_check_keys_iff.mp hc with ⟨uk, _, hone⟩ | ⟨ak, _, hnot, rfl⟩
  · rcases checkOne_status_cases hone with h0 | h1 <;> omega
  · rwa [unauthEntry_triple]

/-- C2: the planned replacement file for a (host, account) pair holds
exactly the `check_keys` rows for that pair with status MATCHED (0) or
MISSING (1); and whenever an UNAUTHORIZED (-1) row exists for
(host, account, matZ), no entry of the planned table for that pair
carries material matZ. -/
theorem fix_plan_exclusion (E : List UserKey) (D : List DiscKey)
    (host user : String) :
    (∀ c, c ∈ key_table (check_keys E D) host user ↔
      (c ∈ check_keys E D ∧ c.host = host ∧ c.user = user ∧
        (c.status = 0 ∨ c.status = 1))) ∧
    (∀ matZ,
      (∃ c ∈ check_keys E D,
        c.host = host ∧ c.user = user ∧ c.key = matZ ∧ c.status = -1) →
      ∀ c ∈ key_table (check_keys E D) host user, c.key ≠ matZ) := by
  have hmem : ∀ c, c ∈ key_table (check_keys E D) host user ↔
      (c ∈ check_keys E D ∧ c.host = host ∧ c.user = user ∧
        (c.status = 0 ∨ c.status = 1)) := by
    intro c
    unfold key_table fixed_keys
    simp only [List.mem_filter, Bool.and_eq_true, beq_iff_eq,
      decide_eq_true_eq]
    constructor
    · rintro ⟨⟨hc, hst⟩, ⟨hh, hu⟩, _⟩
      refine ⟨hc, hh, hu, ?_⟩
      rcases check_keys_status_cases hc with h | h | h
      · exact Or.inl h
      · exact Or.inr h
      · omega
    · rintro ⟨hc, hh, hu, hst⟩
      have : 0 ≤ c.status := by omega
      exact ⟨⟨hc, this⟩, ⟨hh, hu⟩, this⟩
  refine ⟨hmem, ?_⟩
  rintro matZ ⟨cU, hcU, hUh, hUu, hUk, hUst⟩ c hc hkey
  obtain ⟨hcmem, hch, hcu, hcst⟩ := (hmem c).mp hc
  have hUtr : cU.triple ∉ trE E := status_neg_triple_not_mem hcU hUst
  have hctr : c.triple ∈ trE E :=
    status_nonneg_triple_mem hcmem (by omega)
  have : c.triple = cU.triple := by
    simp only [CheckedKey.triple, hch, hcu, hkey, hUh, hUu, hUk]
  rw [this] at hctr
  exact hUtr hctr

/-- Witness for C2 at the spec's §8 scenario: K2 is UNAUTHORIZED at
deploy@db1, the planned table holds the matched K1 row, and that row's
material is not K2. -/
theorem fix_plan_exclusion_witness :
    (unauthEntry akK2 ∈ check_keys [ukK1] [akK1, akK2] ∧
      (unauthEntry akK2).host = "db1" ∧ (unauthEntry akK2).user = "deploy" ∧
      (unauthEntry akK2).key = "K2" ∧ (unauthEntry akK2).status = -1) ∧
    (matchedEntry ukK1 akK1 ∈
      key_table (check_keys [ukK1] [akK1, akK2]) "db1" "deploy") ∧
    (matchedEntry ukK1 akK1).key ≠ "K2" :=
  ⟨by decide, by decide,
    (fix_plan_exclusion [ukK1] [akK1, akK2] "db1" "deploy").2 "K2"
      ⟨unauthEntry akK2, by decide, by decide, by decide, by decide, by decide⟩
      (matchedEntry ukK1 akK1) (by decide)⟩

/-! ## `fetch_config`: policy expansion (lines 259-307) -/

/-- The dict appended for a non-admin key at one access grant
(lines 284-293). -/
def grantBinding (u : ConfigUser) (k : KeyRecord) (g : AccessGrant) :
    UserKey :=
  ⟨g.host, g.username, k.type, k.key, k.hostname, u.email⟩

/-- The dict appended for an admin key at one (server, account) pair
(lines 297-306). -/
def adminBinding (u : ConfigUser) (k : KeyRecord) (s : Server)
    (su : String) : UserKey :=
  ⟨s.host, su, k.type, k.key, k.hostname, u.email⟩

/-- The bindings one key of one user contributes to `all_user_keys`:
non-admin keys expand over their access grants (`continue` when the
list is absent or empty), admin keys over every (server, account) pair
(lines 280-306). -/
def keyBindings (servers : List Server) (u : ConfigUser) (k : KeyRecord) :
    List UserKey :=
  if !k.admin then
    match k.access with
    | none => []
    | some grants => grants.map (grantBinding u k)
  else
    servers.flatMap (fun s => s.users.map (adminBinding u k s))

/-- `fetch_config` (lines 259-307): the `all_user_keys` list built from
the parsed policy.  Users whose `keys` entry is absent or empty are
skipped (lines 277-278). -/
def fetch_config (servers : List Server) (users : List ConfigUser) :
    List UserKey :=
  users.flatMap (fun u =>
    match u.keys with
    | none => []
    | some ks => ks.flatMap (keyBindings servers u))

/-- C7: an admin key expands to exactly one binding per (host, account)
pair declared in the host specs, independently of its access list; a
non-admin key expands to exactly one binding per access grant; users
without keys, keys without grants and empty access lists contribute
zero bindings. -/
theorem fetch_config_expansion (servers : List Server) (u : ConfigUser)
    (k : KeyRecord) :
    (k.admin = true →
      (∀ acc, keyBindings servers u { k with access := acc } =
        keyBindings servers u k) ∧
      (keyBindings servers u k).map (fun b => (b.hostname, b.user)) =
        servers.flatMap (fun s => s.users.map (fun su => (s.host, su))) ∧
      (keyBindings servers u k).length =
        (servers.map (fun s => s.users.length)).sum) ∧
    (k.admin = false →
      keyBindings servers u k = (k.access.getD []).map (grantBinding u k)) ∧
    (fetch_config servers [{ u with keys := none }] = [] ∧
      fetch_config servers [{ u with keys := some [] }] = [] ∧
      (k.admin = false → k.access = none →
        keyBindings servers u k = [])) := by
  refine ⟨?_, ?_, ?_, ?_, ?_⟩
  · intro hadm
    refine ⟨?_, ?_, ?_⟩
    · intro acc
      simp [keyBindings, hadm]
      rfl
    · simp only [keyBindings, hadm, Bool.not_true, Bool.false_eq_true,
        if_false, List.map_flatMap, List.map_map]
      rfl
    · simp only [keyBindings, hadm, Bool.not_true, Bool.false_eq_true,
        if_false]
      rw [List.length_flatMap]
      simp only [Function.comp_def, List.length_map]
  · intro hadm
    cases hacc : k.access with
    | none => simp [keyBindings, hadm, hacc]
    | some grants => simp [keyBindings, hadm, hacc]
  · rfl
  · rfl
  · intro hadm hacc
    simp [keyBindings, hadm, hacc]

/-- Sample admin key for the C7 witness. -/
def kAdmin : KeyRecord := ⟨"ssh-rsa", "KA", "admin-laptop", true, none⟩

/-- Sample non-admin key with one access grant for the C7 witness. -/
def kGrant : KeyRecord :=
  ⟨"ssh-rsa", "KG", "dev-laptop", false, some [⟨"H1", "a"⟩]⟩

/-- Sample identity for the C7 witness. -/
def uIdent : ConfigUser := ⟨"i@example.com", some [kAdmin]⟩

/-- Witness for C7 at the spec's fleet H1(a, b), H2(c): the admin key
yields exactly the three pairs, the non-admin key exactly its grant. -/
theorem fetch_config_expansion_witness :
    (kAdmin.admin = true ∧
      (keyBindings [⟨"H1", ["a", "b"]⟩, ⟨"H2", ["c"]⟩] uIdent kAdmin).map
          (fun b => (b.hostname, b.user)) =
        [("H1", "a"), ("H1", "b"), ("H2", "c")]) ∧
    (kGrant.admin = false ∧
      keyBindings [⟨"H1", ["a", "b"]⟩, ⟨"H2", ["c"]⟩] uIdent kGrant =
        [grantBinding uIdent kGrant ⟨"H1", "a"⟩]) := by
  refine ⟨⟨rfl, ?_⟩, ⟨rfl, ?_⟩⟩
  · have h :=
      ((fetch_config_expansion [⟨"H1", ["a", "b"]⟩, ⟨"H2", ["c"]⟩] uIdent
        kAdmin).1 rfl).2.1
    rw [h]
    decide
  · have h :=
      (fetch_config_expansion [⟨"H1", ["a", "b"]⟩, ⟨"H2", ["c"]⟩] uIdent
        kGrant).2.1 rfl
    rw [h]
    decide

/-! ## The authorized_keys codec

`parse_authorized_keys` (lines 402-421) and the serialization loop of
`create_ssh_file` (line 222), modelled on the text level. -/

/-- An entry of the codec: `{type, key, comment}`.  On the write side
the comment is the dict's `hostname` field, on the parse side its
`user` field. -/
structure AKEntry where
  type : String
  key : String
  comment : String
deriving DecidableEq, Repr

/-- `line.startswith("#")` (line 415). -/
def startsWithHash : List Char → Bool
  | [] => false
  | c :: _ => c == '#'

/-- One serialized line: `f"{type} {key} {comment}\n"` (line 222). -/
def keyLine (e : AKEntry) : String :=
  e.type ++ " " ++ e.key ++ " " ++ e.comment ++ "\n"

/-- The serialization loop of `create_ssh_file`, entry order
preserved. -/
def serialize_keys : List AKEntry → String
  | [] => ""
  | e :: rest => keyLine e ++ serialize_keys rest

/-- Lines 417-419 applied to one non-skipped line: fields are
`line.split(" ")`; `type` is field 0, `key` is field 1 (an `IndexError`
— modelled as `none` — when the line has no space), the comment is the
stripped field 2 when there are more than two fields, else
`"unknown"`.  Fields past the third are ignored. -/
def parseLine (line : List Char) : Option AKEntry :=
  match pySplit ' ' line with
  | t :: k :: u :: _ => some ⟨⟨t⟩, ⟨k⟩, ⟨pyStrip u⟩⟩
  | [t, k] => some ⟨⟨t⟩, ⟨k⟩, "unknown"⟩
  | _ => none

/-- The line loop of `parse_authorized_keys` (lines 414-420): skip
blank and `#` lines, parse the rest in order. -/
def parseAll : List (List Char) → Option (List AKEntry)
  | [] => some []
  | line :: rest =>
    if (pyStrip line).isEmpty || startsWithHash line then parseAll rest
    else
      match parseLine line with
      | none => none
      | some e => (parseAll rest).map (fun es => e :: es)

/-- `parse_authorized_keys` (lines 402-421) on the file's text;
`none` models the `IndexError` raised by a non-blank, non-comment line
without a space. -/
def parse_authorized_keys (content : String) : Option (List AKEntry) :=
  parseAll (pyReadlines content.data)

/-- A string all of whose characters survive `strip` and cannot split a
field: no whitespace at all. -/
def goodField (s : String) : Bool :=
  s.data.all (fun ch => !isPySpace ch)

/-- An entry that serializes to a line the parser reads back verbatim:
whitespace-free fields, a type that does not open a `#` comment, and
not all three fields empty (which would serialize to a blank line). -/
def goodEntry (e : AKEntry) : Bool :=
  goodField e.type && goodField e.key && goodField e.comment &&
    !startsWithHash e.type.data &&
    !(e.type.data.isEmpty && e.key.data.isEmpty && e.comment.data.isEmpty)

/-! ### Lemmas about the Python string primitives -/

theorem pySplit_ne_nil (sep : Char) (l : List Char) : pySplit sep l ≠ [] := by
  cases l with
  | nil => simp [pySplit]
  | cons c cs =>
    unfold pySplit
    cases h : pySplit sep cs with
    | nil => simp
    | cons r rs =>
      by_cases hc : c = sep <;> simp [hc]

theorem pySplit_cons (sep c : Char) (cs : List Char) :
    pySplit sep (c :: cs) =
      match pySplit sep cs with
      | [] => [[]]
      | r :: rs => if c = sep then [] :: r :: rs else (c :: r) :: rs := rfl

theorem pySplit_append_sep {a : List Char} (ha : ' ' ∉ a) (r : List Char) :
    pySplit ' ' (a ++ ' ' :: r) = a :: pySplit ' ' r := by
  induction a with
  | nil =>
    rw [List.nil_append, pySplit_cons]
    cases h : pySplit ' ' r with
    | nil => exact absurd h (pySplit_ne_nil ' ' r)
    | cons x xs => simp
  | cons c cs ih =>
    have hc : c ≠ ' ' := fun h => ha (h ▸ List.mem_cons_self c cs)
    have ih' := ih (fun h => ha (List.mem_cons_of_mem c h))
    rw [List.cons_append, pySplit_cons, ih']
    simp [hc]

theorem pySplit_no_sep {a : List Char} (ha : ' ' ∉ a) :
    pySplit ' ' a = [a] := by
  induction a with
  | nil => rfl
  | cons c cs ih =>
    have hc : c ≠ ' ' := fun h => ha (h ▸ List.mem_cons_self c cs)
    have ih' := ih (fun h => ha (List.mem_cons_of_mem c h))
    rw [pySplit_cons, ih']
    simp [hc]

theorem pyReadlines_cons (c : Char) (cs : List Char) :
    pyReadlines (c :: cs) =
      match pyReadlines cs with
      | [] => if c = '\n' then [['\n']] else [[c]]
      | l :: ls => if c = '\n' then ['\n'] :: l :: ls else (c :: l) :: ls :=
  rfl

theorem pyReadlines_cons_line {a : List Char} (ha : '\n' ∉ a)
    (r : List Char) :
    pyReadlines (a ++ '\n' :: r) = (a ++ ['\n']) :: pyReadlines r := by
  induction a with
  | nil =>
    rw [List.nil_append, pyReadlines_cons]
    cases h : pyReadlines r with
    | nil => simp
    | cons x xs => simp
  | cons c cs ih =>
    have hc : c ≠ '\n' := fun h => ha (h ▸ List.mem_cons_self c cs)
    have ih' := ih (fun h => ha (List.mem_cons_of_mem c h))
    rw [List.cons_append, pyReadlines_cons, ih']
    simp [hc]

theorem noWs_dropWhile {l : List Char}
    (h : ∀ x ∈ l, isPySpace x = false) :
    l.dropWhile isPySpace = l := by
  cases l with
  | nil => rfl
  | cons c cs =>
    rw [List.dropWhile_cons, if_neg (by simp [h c (List.mem_cons_self c cs)])]

theorem pyStrip_noWs {l : List Char}
    (h : ∀ x ∈ l, isPySpace x = false) : pyStrip l = l := by
  unfold pyStrip
  rw [noWs_dropWhile h, noWs_dropWhile (fun x hx => h x (List.mem_reverse.mp hx)),
    List.reverse_reverse]

theorem pyStrip_append_newline {l : List Char}
    (h : ∀ x ∈ l, isPySpace x = false) : pyStrip (l ++ ['\n']) = l := by
  cases l with
  | nil => decide
  | cons c cs =>
    have hc : isPySpace c = false := h c (List.mem_cons_self c cs)
    have hd1 : ((c :: cs) ++ ['\n']).dropWhile isPySpace =
        (c :: cs) ++ ['\n'] := by
      rw [List.cons_append, List.dropWhile_cons, if_neg (by simp [hc])]
    have hrev : ((c :: cs) ++ ['\n']).reverse =
        '\n' :: (cs.reverse ++ [c]) := by
      simp
    have hall : ∀ x ∈ cs.reverse ++ [c], isPySpace x = false := by
      intro x hx
      rcases List.mem_append.mp hx with hx | hx
      · exact h x (List.mem_cons_of_mem c (List.mem_reverse.mp hx))
      · rw [List.mem_singleton.mp hx]
        exact hc
    have hd2 : ('\n' :: (cs.reverse ++ [c])).dropWhile isPySpace =
        cs.reverse ++ [c] := by
      rw [List.dropWhile_cons, if_pos (by decide)]
      exact noWs_dropWhile hall
    unfold pyStrip
    rw [hd1, hrev, hd2, List.reverse_append, List.reverse_reverse]
    rfl

theorem pyStrip_eq_nil_iff {l : List Char} :
    pyStrip l = [] ↔ ∀ x ∈ l, isPySpace x = true := by
  unfold pyStrip
  rw [List.reverse_eq_nil_iff, List.dropWhile_eq_nil_iff]
  constructor
  · intro h x hx
    by_cases hdrop : x ∈ l.dropWhile isPySpace
    · exact h x (List.mem_reverse.mpr hdrop)
    · have : x ∈ l.takeWhile isPySpace ++ l.dropWhile isPySpace := by
        rw [List.takeWhile_append_dropWhile]
        exact hx
      rcases List.mem_append.mp this with hx' | hx'
      · exact List.mem_takeWhile_imp hx'
      · exact absurd hx' hdrop
  · intro h x hx
    refine h x ?_
    have hsub : List.Sublist (l.dropWhile isPySpace) l :=
      List.dropWhile_sublist isPySpace
    exact hsub.mem (List.mem_reverse.mp hx)

/-! ### Line-level lemmas -/

theorem noWs_of_goodField {s : String} (h : goodField s = true) :
    ∀ x ∈ s.data, isPySpace x = false := by
  intro x hx
  have := List.all_eq_true.mp h x hx
  simpa using this

theorem not_mem_of_noWs {l : List Char}
    (h : ∀ x ∈ l, isPySpace x = false) {c : Char}
    (hc : isPySpace c = true) : c ∉ l := by
  intro hm
  rw [h c hm] at hc
  exact absurd hc (by simp)

/-- The characters of one serialized line before its `'\n'`
terminator. -/
def lineBody (e : AKEntry) : List Char :=
  e.type.data ++ ' ' :: (e.key.data ++ ' ' :: e.comment.data)

theorem keyLine_data (e : AKEntry) :
    (keyLine e).data = lineBody e ++ ['\n'] := by
  have h1 : (" " : String).data = [' '] := rfl
  have h2 : ("\n" : String).data = ['\n'] := rfl
  simp [keyLine, lineBody, String.data_append, h1, h2]

theorem serialize_keys_cons_data (e : AKEntry) (es : List AKEntry) :
    (serialize_keys (e :: es)).data =
      lineBody e ++ '\n' :: (serialize_keys es).data := by
  show (keyLine e ++ serialize_keys es).data = _
  rw [String.data_append, keyLine_data, List.append_assoc]
  rfl

theorem goodEntry_parts {e : AKEntry} (h : goodEntry e = true) :
    goodField e.type = true ∧ goodField e.key = true ∧
      goodField e.comment = true ∧ startsWithHash e.type.data = false ∧
      (e.type.data.isEmpty && e.key.data.isEmpty &&
        e.comment.data.isEmpty) = false := by
  unfold goodEntry at h
  simp only [Bool.and_eq_true, Bool.not_eq_true'] at h
  obtain ⟨⟨⟨⟨ht, hk⟩, hc⟩, hh⟩, hne⟩ := h
  exact ⟨ht, hk, hc, hh, hne⟩

theorem lineBody_no_newline {e : AKEntry} (h : goodEntry e = true) :
    '\n' ∉ lineBody e := by
  obtain ⟨ht, hk, hc, _, _⟩ := goodEntry_parts h
  intro hm
  unfold lineBody at hm
  rcases List.mem_append.mp hm with hm | hm
  · exact absurd (noWs_of_goodField ht '\n' hm) (by decide)
  · rcases List.mem_cons.mp hm with hm | hm
    · exact absurd hm (by decide)
    · rcases List.mem_append.mp hm with hm | hm
      · exact absurd (noWs_of_goodField hk '\n' hm) (by decide)
      · rcases List.mem_cons.mp hm with hm | hm
        · exact absurd hm (by decide)
        · exact absurd (noWs_of_goodField hc '\n' hm) (by decide)

theorem parseAll_cons (line : List Char) (rest : List (List Char)) :
    parseAll (line :: rest) =
      if (pyStrip line).isEmpty || startsWithHash line then parseAll rest
      else
        match parseLine line with
        | none => none
        | some e => (parseAll rest).map (fun es => e :: es) := rfl

theorem strip_not_nil_of_witness {l : List Char} (x : Char) (hx : x ∈ l)
    (hxf : isPySpace x = false) : (pyStrip l).isEmpty = false := by
  cases hsp : pyStrip l with
  | nil =>
    rw [pyStrip_eq_nil_iff.mp hsp x hx] at hxf
    exact absurd hxf (by simp)
  | cons y ys => rfl

theorem startsWithHash_body {t : List Char} (hh : startsWithHash t = false)
    (rest : List Char) : startsWithHash (t ++ ' ' :: rest) = false := by
  cases t with
  | nil =>
    show ((' ' == '#') = false)
    decide
  | cons c cs =>
    show ((c == '#') = false)
    exact hh

theorem line_not_skipped {t rest : List Char}
    (hh : startsWithHash t = false) (x : Char) (hx : x ∈ t ++ ' ' :: rest)
    (hxf : isPySpace x = false) :
    ((pyStrip (t ++ ' ' :: rest)).isEmpty ||
      startsWithHash (t ++ ' ' :: rest)) = false := by
  rw [strip_not_nil_of_witness x hx hxf, startsWithHash_body hh]
  rfl

theorem parseLine_fields {t k c : List Char} (ht : ' ' ∉ t) (hk : ' ' ∉ k)
    (hc : ' ' ∉ c ++ ['\n']) :
    parseLine (t ++ ' ' :: (k ++ ' ' :: (c ++ ['\n']))) =
      some ⟨⟨t⟩, ⟨k⟩, ⟨pyStrip (c ++ ['\n'])⟩⟩ := by
  unfold parseLine
  rw [pySplit_append_sep ht, pySplit_append_sep hk, pySplit_no_sep hc]

theorem parseLine_two {t k : List Char} (ht : ' ' ∉ t)
    (hk : ' ' ∉ k ++ ['\n']) :
    parseLine (t ++ ' ' :: (k ++ ['\n'])) =
      some ⟨⟨t⟩, ⟨k ++ ['\n']⟩, "unknown"⟩ := by
  unfold parseLine
  rw [pySplit_append_sep ht, pySplit_no_sep hk]

theorem parseAll_cons_noskip {line : List Char} {rest : List (List Char)}
    (hskip : ((pyStrip line).isEmpty || startsWithHash line) = false) :
    parseAll (line :: rest) =
      match parseLine line with
      | none => none
      | some e => (parseAll rest).map (fun es => e :: es) := by
  rw [parseAll_cons, hskip]
  rfl

theorem parseAll_entry_line {e : AKEntry} (h : goodEntry e = true)
    (rest : List (List Char)) :
    parseAll ((lineBody e ++ ['\n']) :: rest) =
      (parseAll rest).map (fun es => e :: es) := by
  obtain ⟨ht, hk, hc, hh, hne⟩ := goodEntry_parts h
  have htw := noWs_of_goodField ht
  have hkw := noWs_of_goodField hk
  have hcw := noWs_of_goodField hc
  have hts : ' ' ∉ e.type.data := not_mem_of_noWs htw (by decide)
  have hks : ' ' ∉ e.key.data := not_mem_of_noWs hkw (by decide)
  have hcs : ' ' ∉ e.comment.data ++ ['\n'] := by
    intro hm
    rcases List.mem_append.mp hm with hm | hm
    · exact not_mem_of_noWs hcw (by decide) hm
    · simp at hm
  have hline : lineBody e ++ ['\n'] =
      e.type.data ++
        ' ' :: (e.key.data ++ ' ' :: (e.comment.data ++ ['\n'])) := by
    simp [lineBody]
  obtain ⟨x, hxmem, hxf⟩ : ∃ x, x ∈ e.type.data ++
      ' ' :: (e.key.data ++ ' ' :: (e.comment.data ++ ['\n'])) ∧
      isPySpace x = false := by
    cases hT : e.type.data with
    | cons cT csT =>
      refine ⟨cT, List.mem_append_left _ (by simp), ?_⟩
      exact htw cT (by rw [hT]; simp)
    | nil =>
      cases hK : e.key.data with
      | cons cK csK =>
        refine ⟨cK, List.mem_append_right _ (List.mem_cons_of_mem _
          (List.mem_append_left _ (by simp))), ?_⟩
        exact hkw cK (by rw [hK]; simp)
      | nil =>
        cases hC : e.comment.data with
        | cons cC csC =>
          refine ⟨cC, List.mem_append_right _ (List.mem_cons_of_mem _
            (List.mem_append_right _ (List.mem_cons_of_mem _
              (List.mem_append_left _ (by simp))))), ?_⟩
          exact hcw cC (by rw [hC]; simp)
        | nil =>
          exfalso
          rw [hT, hK, hC] at hne
          simp at hne
  rw [hline, parseAll_cons_noskip (line_not_skipped hh x hxmem hxf),
    parseLine_fields hts hks hcs, pyStrip_append_newline hcw]

theorem parse_keyLine {e : AKEntry} (h : goodEntry e = true) :
    parse_authorized_keys (keyLine e) = some [e] := by
  unfold parse_authorized_keys
  rw [keyLine_data]
  have h0 : lineBody e ++ ['\n'] =
      lineBody e ++ '\n' :: ([] : List Char) := rfl
  rw [h0, pyReadlines_cons_line (lineBody_no_newline h),
    parseAll_entry_line h]
  rfl

/-- C5 counterexample: an entry whose type opens a `#` comment
serializes to a line the parser skips, so parse ∘ serialize loses the
entry instead of reproducing the list. -/
theorem parse_serialize_roundtrip_fails :
    parse_authorized_keys (serialize_keys [⟨"#ssh-rsa", "KX", "home"⟩]) =
        some [] ∧
      some ([] : List AKEntry) ≠
        some [(⟨"#ssh-rsa", "KX", "home"⟩ : AKEntry)] :=
  ⟨by decide, by decide⟩

/-- C5 amended: for lists whose entries have whitespace-free fields, a
type not starting with `#`, and at least one nonempty field, parsing
the serialized text reproduces the list exactly; the comment-absent
defaulting to `"unknown"` never arises for serialized output because
serialization always writes three fields.  For arbitrary entries the
round trip can fail (see the counterexample). -/
theorem parse_serialize_roundtrip (L : List AKEntry)
    (h : L.all goodEntry = true) :
    parse_authorized_keys (serialize_keys L) = some L := by
  induction L with
  | nil => rfl
  | cons e es ih =>
    have hp := List.all_eq_true.mp h
    have he : goodEntry e = true := hp e (List.mem_cons_self e es)
    have hes : es.all goodEntry = true :=
      List.all_eq_true.mpr (fun x hx => hp x (List.mem_cons_of_mem e hx))
    unfold parse_authorized_keys at ih ⊢
    rw [serialize_keys_cons_data,
      pyReadlines_cons_line (lineBody_no_newline he),
      parseAll_entry_line he, ih hes]
    rfl

/-- Witness for C5's amended theorem on a two-entry list (one entry
with an empty comment). -/
theorem parse_serialize_roundtrip_witness :
    ([⟨"ssh-rsa", "AAAAB3", "alice"⟩,
      ⟨"ssh-ed25519", "CCCC", ""⟩] : List AKEntry).all goodEntry = true ∧
    parse_authorized_keys
        (serialize_keys
          [⟨"ssh-rsa", "AAAAB3", "alice"⟩, ⟨"ssh-ed25519", "CCCC", ""⟩]) =
      some [⟨"ssh-rsa", "AAAAB3", "alice"⟩, ⟨"ssh-ed25519", "CCCC", ""⟩] :=
  ⟨by decide, parse_serialize_roundtrip _ (by decide)⟩

/-- C10: a two-field line parses with the second field returned
verbatim as the material — trailing newline included — and comment
`"unknown"`; in a three-field line only the comment is stripped and
the material is the bare second field; hence the same key with and
without a comment parses to different materials. -/
theorem parse_two_field_material (a b c : String)
    (ha : goodField a = true) (hb : goodField b = true)
    (hcf : goodField c = true) (hh : startsWithHash a.data = false)
    (hne : (a.data.isEmpty && b.data.isEmpty) = false) :
    parse_authorized_keys (a ++ " " ++ b ++ "\n") =
        some [⟨a, b ++ "\n", "unknown"⟩] ∧
      parse_authorized_keys (a ++ " " ++ b ++ " " ++ c ++ "\n") =
        some [⟨a, b, c⟩] ∧
      (b ++ "\n" : String) ≠ b := by
  have haw := noWs_of_goodField ha
  have hbw := noWs_of_goodField hb
  have hts : ' ' ∉ a.data := not_mem_of_noWs haw (by decide)
  have hbs : ' ' ∉ b.data ++ ['\n'] := by
    intro hm
    rcases List.mem_append.mp hm with hm | hm
    · exact not_mem_of_noWs hbw (by decide) hm
    · simp at hm
  refine ⟨?_, ?_, ?_⟩
  · unfold parse_authorized_keys
    have hdata : (a ++ " " ++ b ++ "\n").data =
        (a.data ++ ' ' :: b.data) ++ '\n' :: ([] : List Char) := by
      have h1 : (" " : String).data = [' '] := rfl
      have h2 : ("\n" : String).data = ['\n'] := rfl
      simp [String.data_append, h1, h2]
    have hnl : '\n' ∉ a.data ++ ' ' :: b.data := by
      intro hm
      rcases List.mem_append.mp hm with hm | hm
      · exact absurd (haw '\n' hm) (by decide)
      · rcases List.mem_cons.mp hm with hm | hm
        · exact absurd hm (by decide)
        · exact absurd (hbw '\n' hm) (by decide)
    rw [hdata, pyReadlines_cons_line hnl]
    have hl2 : (a.data ++ ' ' :: b.data) ++ ['\n'] =
        a.data ++ ' ' :: (b.data ++ ['\n']) := by
      simp
    obtain ⟨x, hxmem, hxf⟩ : ∃ x,
        x ∈ a.data ++ ' ' :: (b.data ++ ['\n']) ∧ isPySpace x = false := by
      cases hA : a.data with
      | cons cA csA =>
        refine ⟨cA, List.mem_append_left _ (by simp), ?_⟩
        exact haw cA (by rw [hA]; simp)
      | nil =>
        cases hB : b.data with
        | cons cB csB =>
          refine ⟨cB, List.mem_append_right _ (List.mem_cons_of_mem _
            (List.mem_append_left _ (by simp))), ?_⟩
          exact hbw cB (by rw [hB]; simp)
        | nil =>
          exfalso
          rw [hA, hB] at hne
          simp at hne
    rw [hl2, parseAll_cons_noskip (line_not_skipped hh x hxmem hxf),
      parseLine_two hts hbs]
    have hbn : (b ++ "\n" : String) = ⟨b.data ++ ['\n']⟩ := by
      have h2 : ("\n" : String).data = ['\n'] := rfl
      apply String.ext
      rw [String.data_append, h2]
    rw [hbn]
    rfl
  · have hne3 : (a.data.isEmpty && b.data.isEmpty &&
        c.data.isEmpty) = false := by
      rw [hne]
      rfl
    have he : goodEntry ⟨a, b, c⟩ = true := by
      show (goodField a && goodField b && goodField c &&
        !startsWithHash a.data &&
        !(a.data.isEmpty && b.data.isEmpty && c.data.isEmpty)) = true
      rw [ha, hb, hcf, hh, hne3]
      rfl
    have h2 : (a ++ " " ++ b ++ " " ++ c ++ "\n") = keyLine ⟨a, b, c⟩ := rfl
    rw [h2]
    exact parse_keyLine he
  · intro heq
    have h2 : (b ++ "\n").data = b.data := congrArg String.data heq
    rw [String.data_append] at h2
    have h3 := congrArg List.length h2
    simp at h3

/-- Witness for C10 at a concrete key line. -/
theorem parse_two_field_material_witness :
    (goodField "ssh-rsa" = true ∧ goodField "KEY" = true ∧
      goodField "host" = true ∧
      startsWithHash ("ssh-rsa" : String).data = false ∧
      ((("ssh-rsa" : String).data.isEmpty &&
        ("KEY" : String).data.isEmpty)) = false) ∧
    parse_authorized_keys ("ssh-rsa" ++ " " ++ "KEY" ++ "\n") =
      some [⟨"ssh-rsa", "KEY" ++ "\n", "unknown"⟩] :=
  ⟨⟨by decide, by decide, by decide, by decide, by decide⟩,
    (parse_two_field_material "ssh-rsa" "KEY" "host" (by decide) (by decide)
      (by decide) (by decide) (by decide)).1⟩

/-! ## Credential handling: the password-authentication retry loop

`fetch_authorized_keys` (lines 323-353) and `upload_ssh_file`
(lines 149-179) share one auth pattern: try key-based auth with
`./key.pem`; on "Authentication failed", take the console lock and run
up to 3 password attempts.  Each attempt takes the password from the
caller's `pwds` dict when a non-empty one is cached (Python `if pwd:`
— an empty cached string is falsy and triggers a prompt), else prompts
interactively; the password tried is stored into the MODULE-LEVEL
`passwords` dict (line 340 / 167), never into `pwds`.  A password
attempt failing with a non-auth error breaks out of the loop (fetch
prints and breaks; upload re-raises).  After the loop, `open_sftp()`
on a client that never connected raises an `SSHException`; when the
cause is three failed password attempts this terminal failure is what
the spec names `AuthenticationExhausted`, and the model labels the
failure by its cause. -/

/-- Outcome of one `client.connect` call. -/
inductive ConnectResult
  | ok
  | authFailed
  | otherError
deriving DecidableEq, Repr

/-- The auth environment of one (host, account) pair: the outcome of
key-based auth, the outcome of password auth as a function of the
password used, and the text the operator types at the n-th interactive
prompt of the run. -/
structure AuthEnv where
  keyConnect : ConnectResult
  pwConnect : String → ConnectResult
  promptText : Nat → String

/-- The two password dicts and the number of prompts issued so far:
`pwds` is the caller's cache (read at line 335 / 160), `passwords` the
module-level dict of line 14 (written at line 340 / 167).  Dicts are
association lists, newest entry first. -/
structure CredState where
  pwds : List (String × String)
  passwords : List (String × String)
  promptCount : Nat
deriving DecidableEq, Repr

/-- `d.get(key)` on the association-list model of a dict. -/
def dictGet (d : List (String × String)) (k : String) : Option String :=
  (d.find? (fun p => p.1 == k)).map Prod.snd

/-- Lines 335-339 / 160-166: reuse a cached non-empty password from
`pwds`, else prompt; returns the password and the state after any
prompt. -/
def pwAttempt (env : AuthEnv) (key : String) (st : CredState) :
    String × CredState :=
  match dictGet st.pwds key with
  | some pwd =>
    if pwd = "" then
      (env.promptText st.promptCount,
        { st with promptCount := st.promptCount + 1 })
    else (pwd, st)
  | none =>
    (env.promptText st.promptCount,
      { st with promptCount := st.promptCount + 1 })

/-- The attempt's password together with the state after line 340 /
167 stored it into the module-level `passwords` dict. -/
def attemptRecorded (env : AuthEnv) (key : String) (st : CredState) :
    String × CredState :=
  let pa := pwAttempt env key st
  (pa.1, { pa.2 with passwords := (key, pa.1) :: pa.2.passwords })

/-- How the `while attempts < 3` loop ended. -/
inductive LoopExit
  | connected
  | exhausted
  | aborted
deriving DecidableEq, Repr

/-- The password loop (lines 332-349 / 157-175), `fuel` being the
remaining attempts. -/
def pwLoop (env : AuthEnv) (key : String) :
    Nat → CredState → LoopExit × CredState
  | 0, st => (.exhausted, st)
  | fuel + 1, st =>
    let a := attemptRecorded env key st
    match env.pwConnect a.1 with
    | .ok => (.connected, a.2)
    | .authFailed => pwLoop env key fuel a.2
    | .otherError => (.aborted, a.2)

theorem pwLoop_succ (env : AuthEnv) (key : String) (fuel : Nat)
    (st : CredState) :
    pwLoop env key (fuel + 1) st =
      match env.pwConnect (attemptRecorded env key st).1 with
      | .ok => (.connected, (attemptRecorded env key st).2)
      | .authFailed => pwLoop env key fuel (attemptRecorded env key st).2
      | .otherError => (.aborted, (attemptRecorded env key st).2) := rfl

/-- How a fetch or upload task for one pair ends;
`authenticationExhausted` is the `SSHException` that `open_sftp`
raises on a never-connected client after key auth failed and all 3
password attempts failed. -/
inductive TaskError
  | authenticationExhausted
  | transport
deriving DecidableEq, Repr

/-- `fetch_authorized_keys` (lines 310-399) reduced to its
authentication and download outcome: `remote` is the parsed remote
file (`none` = missing file, treated as no keys, lines 367-375);
non-auth key-connect errors re-raise (line 351); after the password
loop a client that never connected fails at `open_sftp` (line 354),
labelled by the loop's exit cause. -/
def fetch_authorized_keys (env : AuthEnv) (key : String)
    (remote : Option (List AKEntry)) (st : CredState) :
    Except TaskError (List AKEntry) × CredState :=
  match env.keyConnect with
  | .ok => (Except.ok (remote.getD []), st)
  | .otherError => (Except.error .transport, st)
  | .authFailed =>
    let r := pwLoop env key 3 st
    match r.1 with
    | .connected => (Except.ok (remote.getD []), r.2)
    | .exhausted => (Except.error .authenticationExhausted, r.2)
    | .aborted => (Except.error .transport, r.2)

/-- `upload_ssh_file` (lines 126-204) reduced to its authentication
outcome: the same auth pattern as the fetch, then the staged file is
uploaded. -/
def upload_ssh_file (env : AuthEnv) (key : String) (st : CredState) :
    Except TaskError Unit × CredState :=
  match env.keyConnect with
  | .ok => (Except.ok (), st)
  | .otherError => (Except.error .transport, st)
  | .authFailed =>
    let r := pwLoop env key 3 st
    match r.1 with
    | .connected => (Except.ok (), r.2)
    | .exhausted => (Except.error .authenticationExhausted, r.2)
    | .aborted => (Except.error .transport, r.2)

/-- The fetch fan-out of `get_ssh_keys` (lines 241-256): one task per
(host, account) pair, all joined before returning.  A task that dies
with an exception loses only its own result (the Python thread prints
the traceback; the join continues).  The threads share only the
credential dicts, which no task reads under another pair's key, so
each pair's result is a function of its own environment. -/
def get_ssh_keys (pairs : List String) (envOf : String → AuthEnv)
    (remoteOf : String → Option (List AKEntry)) (st : CredState) :
    List (String × Except TaskError (List AKEntry)) :=
  pairs.map (fun p => (p, (fetch_authorized_keys (envOf p) p (remoteOf p) st).1))

theorem pwLoop_all_fail {env : AuthEnv} {key : String}
    (hpw : ∀ s, env.pwConnect s = .authFailed) :
    ∀ (n : Nat) (st : CredState), ∃ st2,
      pwLoop env key n st = (LoopExit.exhausted, st2) := by
  intro n
  induction n with
  | zero => exact fun st => ⟨st, rfl⟩
  | succ n ih =>
    intro st
    obtain ⟨st2, h2⟩ := ih (attemptRecorded env key st).2
    exact ⟨st2, by rw [pwLoop_succ, hpw]; exact h2⟩

/-- C3: when key-based auth fails and all 3 password attempts fail,
both the fetch and the upload operation for the pair end with the
`AuthenticationExhausted` failure; in the fetch fan-out this failure
is recorded for that pair and every other pair's entry is untouched
(exactly one entry per scheduled pair). -/
theorem authentication_exhausted_per_pair (env : AuthEnv) (key : String)
    (remote : Option (List AKEntry)) (st : CredState)
    (hkey : env.keyConnect = .authFailed)
    (hpw : ∀ s, env.pwConnect s = .authFailed) :
    (fetch_authorized_keys env key remote st).1 =
        Except.error TaskError.authenticationExhausted ∧
      (upload_ssh_file env key st).1 =
        Except.error TaskError.authenticationExhausted ∧
      ∀ (pairs : List String) (envOf : String → AuthEnv)
        (remoteOf : String → Option (List AKEntry)) (st' : CredState),
        envOf key = env → key ∈ pairs →
        ((key, Except.error TaskError.authenticationExhausted) ∈
            get_ssh_keys pairs envOf remoteOf st' ∧
          (get_ssh_keys pairs envOf remoteOf st').map Prod.fst = pairs) := by
  have hfetch : ∀ (r : Option (List AKEntry)) (s : CredState),
      (fetch_authorized_keys env key r s).1 =
        Except.error TaskError.authenticationExhausted := by
    intro r s
    obtain ⟨st2, h2⟩ := pwLoop_all_fail hpw 3 s
    unfold fetch_authorized_keys
    rw [hkey, h2]
  refine ⟨hfetch remote st, ?_, ?_⟩
  · obtain ⟨st2, h2⟩ := pwLoop_all_fail hpw 3 st
    unfold upload_ssh_file
    rw [hkey, h2]
  · intro pairs envOf remoteOf st' henv hmem
    constructor
    · have : (key, (fetch_authorized_keys (envOf key) key (remoteOf key)
          st').1) ∈ get_ssh_keys pairs envOf remoteOf st' :=
        List.mem_map_of_mem _ hmem
      rwa [henv, hfetch] at this
    · rw [get_ssh_keys, List.map_map]
      have hcomp : (Prod.fst ∘ fun p =>
          (p, (fetch_authorized_keys (envOf p) p (remoteOf p) st').1)) =
            @id String := rfl
      rw [hcomp, List.map_id]

/-- Sample environment where key auth and every password fail. -/
def envFail : AuthEnv := ⟨.authFailed, fun _ => .authFailed, fun _ => "pw"⟩

/-- Sample empty credential state. -/
def stEmpty : CredState := ⟨[], [], 0⟩

/-- Witness for C3 at a concrete always-failing environment. -/
theorem authentication_exhausted_witness :
    (fetch_authorized_keys envFail "deploy@db1" none stEmpty).1 =
        Except.error TaskError.authenticationExhausted ∧
      (upload_ssh_file envFail "deploy@db1" stEmpty).1 =
        Except.error TaskError.authenticationExhausted :=
  ⟨(authentication_exhausted_per_pair envFail "deploy@db1" none stEmpty rfl
      (fun _ => rfl)).1,
    (authentication_exhausted_per_pair envFail "deploy@db1" none stEmpty rfl
      (fun _ => rfl)).2.1⟩

/-- Sample environment where key auth fails and the first typed
password succeeds. -/
def envPrompt : AuthEnv := ⟨.authFailed, fun _ => .ok, fun _ => "s3cret"⟩

/-- State after one fetch for deploy@db1 starting from empty caches. -/
def stAfterOne : CredState :=
  (fetch_authorized_keys envPrompt "deploy@db1" none stEmpty).2

/-- State after a second fetch for the same pair in the same run. -/
def stAfterTwo : CredState :=
  (fetch_authorized_keys envPrompt "deploy@db1" none stAfterOne).2

/-- C6: the first fetch prompts once and stores the secret under
`"deploy@db1"` — but in the module-level `passwords` dict, while the
caller's `pwds` dict (the one a later fetch consults at line 335)
stays empty; the second fetch for the same pair therefore prompts
again instead of reusing the secret. -/
theorem password_cache_not_reused :
    stAfterOne.promptCount = 1 ∧
      stAfterOne.passwords = [("deploy@db1", "s3cret")] ∧
      stAfterOne.pwds = [] ∧
      stAfterTwo.promptCount = 2 := by decide

/-! ## `upload_all_ssh_files`: the remediation fan-out (lines 88-123) -/

/-- One staged-and-spawned upload: the file is created with
`create_ssh_file` and a thread running `upload_ssh_file` is started
for `host_user.split("@")[1]` / `host_user.split("@")[0]`
(lines 110-121). -/
structure UploadTask where
  host : String
  username : String
deriving DecidableEq, Repr

/-- `host_user.split("@")[1]` (line 113). -/
def hostOfKey (host_user : String) : String :=
  ⟨(pySplit '@' host_user.data).getD 1 []⟩

/-- `host_user.split("@")[0]` (line 114). -/
def userOfKey (host_user : String) : String :=
  ⟨(pySplit '@' host_user.data).getD 0 []⟩

/-- `upload_all_ssh_files` (lines 101-123) as the list of upload tasks
it stages and spawns, in order: the outer loop ranges over the
config's servers, the inner loop over ALL entries of `key_tables`
(the `host` bound at line 106 is never used). -/
def upload_all_ssh_files (servers : List Server)
    (key_tables : List (String × List CheckedKey)) : List UploadTask :=
  servers.flatMap (fun _server =>
    key_tables.map (fun kt => ⟨hostOfKey kt.1, userOfKey kt.1⟩))

/-- Sample config servers for the C8 failing input. -/
def serverDb1 : Server := ⟨"db1", ["deploy"]⟩

/-- Second sample config server. -/
def serverWeb1 : Server := ⟨"web1", ["deploy"]⟩

/-- C8 (code bug): `upload_all_ssh_files` stages and spawns
`len(servers) * len(key_tables)` uploads — every planned pair once per
configured server — instead of exactly one per planned pair: with two
servers in the config and a single planned pair deploy@db1, the plan
is uploaded twice. -/
theorem upload_all_per_server_duplication :
    (∀ (servers : List Server)
      (key_tables : List (String × List CheckedKey)),
      (upload_all_ssh_files servers key_tables).length =
        servers.length * key_tables.length) ∧
    upload_all_ssh_files [serverDb1, serverWeb1]
        [("deploy@db1", [matchedEntry ukK1 akK1])] =
      [⟨"db1", "deploy"⟩, ⟨"db1", "deploy"⟩] := by
  constructor
  · intro servers key_tables
    rw [upload_all_ssh_files, List.length_flatMap]
    have hconst : (List.length ∘ fun _server : Server =>
        key_tables.map (fun kt =>
          (⟨hostOfKey kt.1, userOfKey kt.1⟩ : UploadTask))) =
        fun _ => key_tables.length := by
      funext s
      simp
    rw [hconst, List.map_const', List.sum_replicate, smul_eq_mul]
  · decide

/-! ## The console-lock discipline (C9)

A small-step interleaving model of concurrent tasks running the auth
section of `fetch_authorized_keys` / `upload_ssh_file`.  Each task:
tries key auth (line 326 / 150); on auth failure blocks on
`console_lock.acquire()` (line 330 / 156), then prompts inside
`getpass` (line 339 / 164); after its try/except — whether or not it
ever acquired the lock — it runs
`if console_lock and console_lock.locked(): console_lock.release()`
(lines 352-353 / 178-179), which releases the lock whenever ANY task
holds it (a Python `threading.Lock` has no owner).  One scheduler step
advances one task by one program point; a task sitting at `prompting`
is inside an interactive prompt. -/

/-- Program points of the auth section. -/
inductive TaskPC
  | start
  | acquire
  | prompting
  | releaseCheck
  | done
deriving DecidableEq, Repr

/-- One task: whether its key-based auth succeeds, and its program
point. -/
structure LockTask where
  keyOk : Bool
  pc : TaskPC
deriving DecidableEq, Repr

/-- Observable lock events, with the ghost record of who last acquired
the lock at release time. -/
inductive LockEvent
  | acquired (tid : Nat)
  | released (tid : Nat) (acquirer : Option Nat)
deriving DecidableEq, Repr

/-- Shared state: the tasks, the lock bit, the ghost last acquirer and
the event log. -/
structure LockSys where
  tasks : List LockTask
  lockHeld : Bool
  lastAcquirer : Option Nat
  events : List LockEvent
deriving DecidableEq, Repr

/-- One scheduler step of task `tid`. -/
def stepTask (sys : LockSys) (tid : Nat) : LockSys :=
  match sys.tasks[tid]? with
  | none => sys
  | some t =>
    match t.pc with
    | .start =>
      if t.keyOk then
        { sys with tasks := sys.tasks.set tid ({ t with pc := .releaseCheck }) }
      else
        { sys with tasks := sys.tasks.set tid ({ t with pc := .acquire }) }
    | .acquire =>
      if sys.lockHeld then sys
      else
        { sys with
          tasks := sys.tasks.set tid ({ t with pc := .prompting })
          lockHeld := true
          lastAcquirer := some tid
          events := sys.events ++ [.acquired tid] }
    | .prompting =>
      { sys with tasks := sys.tasks.set tid ({ t with pc := .releaseCheck }) }
    | .releaseCheck =>
      if sys.lockHeld then
        { sys with
          tasks := sys.tasks.set tid ({ t with pc := .done })
          lockHeld := false
          events := sys.events ++ [.released tid sys.lastAcquirer] }
      else
        { sys with tasks := sys.tasks.set tid ({ t with pc := .done }) }
    | .done => sys

/-- Run a schedule: each entry names the task taking the next step. -/
def runSched (sched : List Nat) (sys : LockSys) : LockSys :=
  sched.foldl stepTask sys

/-- Three tasks for three pairs: task 0 and task 2 need a password,
task 1 authenticates by key. -/
def lockDemoInit : LockSys :=
  ⟨[⟨false, .start⟩, ⟨true, .start⟩, ⟨false, .start⟩], false, none, []⟩

/-- The interleaving: task 0 acquires and starts prompting; task 1
(key auth OK) reaches the release site and frees task 0's lock; task 2
then acquires and prompts while task 0 is still prompting. -/
def lockDemoFinal : LockSys := runSched [0, 0, 1, 1, 2, 2] lockDemoInit

/-- C9 (code bug): under the schedule of `lockDemoFinal`, the lock is
released by task 1 although task 0 acquired it (the release-by-
non-acquirer event is in the log), and afterwards tasks 0 and 2 sit at
`prompting` simultaneously — two interactive password prompts
overlap. -/
theorem console_lock_violation :
    lockDemoFinal.events =
        [LockEvent.acquired 0, LockEvent.released 1 (some 0),
          LockEvent.acquired 2] ∧
      lockDemoFinal.tasks.map LockTask.pc =
        [TaskPC.prompting, TaskPC.done, TaskPC.prompting] := by decide

end KeyManager
